import Mathlib

set_option maxRecDepth 40000

/-!
# Verification of the VVM decimal-machine core (`info-systems/assets/app.js`)

Shallow embedding of the core of the repository: the assembler
(`assembleProgram`), the program loader (`loadProgram`), the machine reset
(`reset`), and the fetch-decode-execute interpreter (`fetch`/`decode`/
`execute`/`step`).  JavaScript numbers that stay integral are modelled as
`Int`/`Nat`; JavaScript arrays as `List`.  The DOM/EventBus emissions, the
console log strings of `execute`, and the animation controller are
presentation-only and are not part of the state modelled here.
-/

/- ============================================================
   JavaScript string primitives used by the assembler
   ============================================================ -/

/-- Whitespace test for the characters that occur in program text
(JS `trim`/`\s`). -/
def isWSChar (c : Char) : Bool :=
  c == ' ' || c == '\t' || c == '\r' || c == '\n'

/-- `String.trim` as in JS: drop whitespace at both ends. -/
def trimList (cs : List Char) : List Char :=
  ((cs.dropWhile isWSChar).reverse.dropWhile isWSChar).reverse

/-- JS `s.trim()`. -/
def jsTrim (s : String) : String := ⟨trimList s.data⟩

/-- Characters before the first occurrence of the separator substring:
JS `s.split(sep)[0]`. -/
def takeBeforeList (sep : List Char) : List Char → List Char
  | [] => []
  | c :: cs => if sep.isPrefixOf (c :: cs) then [] else c :: takeBeforeList sep cs

/-- JS `s.split(sep)[0]` for a substring separator. -/
def takeBefore (s sep : String) : String := ⟨takeBeforeList sep.data s.data⟩

/-- JS `s.split("\n")`: all segments, empty segments kept. -/
def splitOnChar (sep : Char) : List Char → List (List Char)
  | [] => [[]]
  | c :: cs =>
    if c == sep then [] :: splitOnChar sep cs
    else
      match splitOnChar sep cs with
      | [] => [[c]]
      | l :: ls => (c :: l) :: ls

/-- The source text cut into lines (JS `code.split("\n")`). -/
def splitLines (s : String) : List String :=
  (splitOnChar '\n' s.data).map fun l => ⟨l⟩

/-- JS `s.split(/\s+/)` on a trimmed string: maximal runs of
non-whitespace characters. -/
def splitWSAux (acc : List Char) : List Char → List (List Char)
  | [] => if acc.isEmpty then [] else [acc.reverse]
  | c :: cs =>
    if isWSChar c then
      if acc.isEmpty then splitWSAux [] cs
      else acc.reverse :: splitWSAux [] cs
    else splitWSAux (c :: acc) cs

/-- Whitespace tokenisation of an instruction line. -/
def splitWS (s : String) : List String :=
  (splitWSAux [] s.data).map fun l => ⟨l⟩

/-- JS `a === b` on strings. -/
def strEq (a b : String) : Bool := a.data == b.data

/-- JS `s.startsWith(p)`. -/
def sStarts (s p : String) : Bool := p.data.isPrefixOf s.data

/-- JS `s.substring(n)`. -/
def dropStr (s : String) (n : Nat) : String := ⟨s.data.drop n⟩

/-- JS `s.toUpperCase()` (ASCII, which is all the source text uses). -/
def jsToUpper (s : String) : String := ⟨s.data.map Char.toUpper⟩

/-- Value of a non-empty run of decimal digit characters. -/
def natOfDigits (acc : Nat) : List Char → Nat
  | [] => acc
  | c :: cs => natOfDigits (acc * 10 + (c.toNat - 48)) cs

/-- JS `parseInt(s, 10)`: skip whitespace, optional sign, then the maximal
run of leading digits; `none` models `NaN` (no digits found). -/
def parseIntJS (s : String) : Option Int :=
  let cs := s.data.dropWhile isWSChar
  match cs with
  | '-' :: rest => (leadVal rest).map fun n => -(n : Int)
  | '+' :: rest => (leadVal rest).map fun n => (n : Int)
  | _ => (leadVal cs).map fun n => (n : Int)
where
  leadVal (cs : List Char) : Option Nat :=
    let ds := cs.takeWhile Char.isDigit
    if ds.isEmpty then none else some (natOfDigits 0 ds)

/-- The test `/^-?\d+$/.test(codeOnly)` of `assembleProgram`. -/
def isBareIntStr (s : String) : Bool :=
  match s.data with
  | '-' :: rest => !rest.isEmpty && rest.all Char.isDigit
  | cs => !cs.isEmpty && cs.all Char.isDigit

/- ============================================================
   Assembler (`assembleProgram` in app.js)
   ============================================================ -/

/-- The `OPCODES` table of app.js. -/
def OPCODES : List (String × Nat) :=
  [("HALT", 0), ("HLT", 0), ("COB", 0),
   ("ADD", 1), ("SUB", 2),
   ("STORE", 3), ("STO", 3), ("STA", 3),
   ("NOP", 4), ("NUL", 4),
   ("LOAD", 5), ("LDA", 5),
   ("BRANCH", 6), ("BR", 6), ("BRU", 6), ("JMP", 6),
   ("BRZ", 7), ("BRP", 8),
   ("IN", 901), ("INP", 901),
   ("OUT", 902), ("PRN", 902)]

/-- JS `OPCODES.hasOwnProperty(m)` / `OPCODES[m]`. -/
def lookupOpcode (m : String) : Option Nat :=
  (OPCODES.find? fun p => strEq p.fst m).map Prod.snd

/-- One entry of the assembled `program` array:
`{address, bytecode, line, instruction, operand}`. -/
structure ProgEntry where
  address : Nat
  bytecode : Int
  line : Nat
  instr : String
  operand : Int
deriving DecidableEq

/-- The mutable state threaded through the assembly loop:
the current load address plus the `program` and `errors` arrays. -/
structure AsmState where
  address : Nat
  program : List ProgEntry
  errors : List String
deriving DecidableEq

/-- The error string pushed for an unknown mnemonic:
`Line (i+1): Unknown instruction '<M>'`. -/
def unknownInstrMsg (lineNo : Nat) (m : String) : String :=
  "Line " ++ toString lineNo ++ ": Unknown instruction '" ++ m ++ "'"

/-- Comment and whitespace stripping of one raw source line, exactly as in
`assembleProgram`: trim; skip empty lines and lines starting with a comment
marker; cut at the first `//`, trim, skip if empty; cut at the first `;`,
trim, skip if empty.  `none` means the line is skipped. -/
def stripCode (raw : String) : Option String :=
  let line := jsTrim raw
  if line.data.isEmpty || sStarts line "//" || sStarts line ";" then none
  else
    let c0 := jsTrim (takeBefore line "//")
    if c0.data.isEmpty then none
    else
      let codeOnly := jsTrim (takeBefore c0 ";")
      if codeOnly.data.isEmpty then none
      else some codeOnly

/-- Processing of one stripped code line (the body of the `for` loop of
`assembleProgram` after comment stripping), at 0-based source index `i`. -/
def processCode (st : AsmState) (i : Nat) (codeOnly : String) : AsmState :=
  -- load directive `*nn`: set address if 0 <= nn <= 99, else silently ignore
  if sStarts codeOnly "*" then
    match parseIntJS (dropStr codeOnly 1) with
    | some n => if 0 ≤ n ∧ n ≤ 99 then { st with address := n.toNat } else st
    | none => st
  -- DAT directive: any line whose upper-cased text starts with "DAT"
  else if sStarts (jsToUpper codeOnly) "DAT" then
    match parseIntJS (jsTrim (dropStr codeOnly 3)) with
    | some v =>
      { st with
        program := st.program ++ [⟨st.address, v, i, "DAT", v⟩]
        address := st.address + 1 }
    | none => st
  -- bare signed integer: raw data / machine word
  else if isBareIntStr codeOnly then
    let v := (parseIntJS codeOnly).getD 0
    { st with
      program := st.program ++ [⟨st.address, v, i, "DATA", v⟩]
      address := st.address + 1 }
  -- instruction line
  else
    let parts := splitWS codeOnly
    let mUp := jsToUpper (parts.headD "")
    -- JS: `parts[1] ? parseInt(parts[1], 10) : 0`; an unparsable operand
    -- token gives NaN in JS, modelled here as 0 (no claim depends on it)
    let operand : Int :=
      match parts.get? 1 with
      | some t => (parseIntJS t).getD 0
      | none => 0
    match lookupOpcode mUp with
    | none => { st with errors := st.errors ++ [unknownInstrMsg (i + 1) mUp] }
    | some opc =>
      let bytecode : Int :=
        if opc == 901 || opc == 902 then (opc : Int)
        else (opc : Int) * 100 + Int.tmod operand 100
      { st with
        program := st.program ++ [⟨st.address, bytecode, i, mUp, operand⟩]
        address := st.address + 1 }

/-- Processing of one raw source line. -/
def processLine (st : AsmState) (i : Nat) (raw : String) : AsmState :=
  match stripCode raw with
  | none => st
  | some codeOnly => processCode st i codeOnly

/-- The assembly loop over the remaining lines, `i` the 0-based index of the
first of them. -/
def asmRun (i : Nat) (st : AsmState) : List String → AsmState
  | [] => st
  | l :: ls => asmRun (i + 1) (processLine st i l) ls

/-- `assembleProgram(code)`: returns `(program, errors)`. -/
def assembleProgram (code : String) : List ProgEntry × List String :=
  let st := asmRun 0 ⟨0, [], []⟩ (splitLines code)
  (st.program, st.errors)

/- ============================================================
   CPU state, memory, machine (the `cpu`, `memory`, `state` globals)
   ============================================================ -/

/-- The `cpu` object: `{PC, AC, IR, MAR, MBR, Z, N}`.  `PC` and `MAR` only
ever hold non-negative integers in the source (initialised to 0, assigned
from `PC`, incremented, or assigned a decoded operand), so they are `Nat`;
`AC`/`IR`/`MBR` hold full signed words. -/
structure CPU where
  PC : Nat
  AC : Int
  IR : Int
  MAR : Nat
  MBR : Int
  Z : Bool
  N : Bool
deriving DecidableEq

/-- The machine: cpu registers, the `memory` array, and the runtime parts of
the `state` object (`halted`, `error`, `cycle`, `program`, `currentLine`).
The UI-pacing fields `running` and `speed` are presentation state. -/
structure Machine where
  cpu : CPU
  memory : List Int
  halted : Bool
  error : Bool
  cycle : Nat
  program : List ProgEntry
  currentLine : Int
deriving DecidableEq

/-- `let cpu = {PC: 0, AC: 0, IR: 0, MAR: 0, MBR: 0, Z: false, N: false}`. -/
def initCPU : CPU := ⟨0, 0, 0, 0, 0, false, false⟩

/-- `let memory = new Array(256).fill(0)`. -/
def initMemory : List Int := List.replicate 256 0

/-- The machine as the script initialises it. -/
def freshMachine : Machine :=
  ⟨initCPU, initMemory, false, false, 0, [], -1⟩

/-- JS array store `memory[a] = v`: in-range indices are overwritten;
an index at or past the length extends the array to length `a + 1`
(JS pads with `undefined`, modelled as 0; no claim reads a padding cell
that was never subsequently written). -/
def jsSet : List Int → Nat → Int → List Int
  | [], 0, v => [v]
  | [], a + 1, v => 0 :: jsSet [] a v
  | _ :: xs, 0, v => v :: xs
  | x :: xs, a + 1, v => x :: jsSet xs a v

/-- JS array read `memory[a]`; an out-of-range read yields `undefined` in
JS, modelled as 0 (no claim reaches an out-of-range read). -/
def jsGet (m : List Int) (a : Nat) : Int := m.getD a 0

/- ============================================================
   Fetch / decode / execute / step
   ============================================================ -/

/-- The word the next `fetch` will load: `memory[PC]`. -/
def fetchedWord (m : Machine) : Int := jsGet m.memory m.cpu.PC

/-- Result of `decode`. -/
structure Decoded where
  opcode : Nat
  operand : Nat
deriving DecidableEq

/-- `decode(instruction)`: 901/902 are the reserved full-word opcodes;
otherwise the first digit of the absolute value is the opcode and the last
two digits are the operand. -/
def decode (w : Int) : Decoded :=
  if w == 901 || w == 902 then ⟨w.toNat, 0⟩
  else ⟨w.natAbs / 100 % 10, w.natAbs % 100⟩

/-- `execute(opcode, operand)`.  `inp` is the value supplied by the
environment for opcode 901 (`prompt`): `none` models a cancelled prompt;
an unparsable reply behaves like an out-of-range one (error state). -/
def execute (inp : Option Int) (opcode operand : Nat) (m : Machine) : Machine :=
  match opcode with
  | 0 => -- HALT/HLT/COB
    { m with halted := true }
  | 1 => -- ADD
    let mar := operand
    let mbr := jsGet m.memory mar
    let ac := m.cpu.AC + mbr
    if ac < -999 || ac > 999 then
      { m with cpu := { m.cpu with MAR := mar, MBR := mbr, AC := ac }, error := true }
    else
      { m with cpu := { m.cpu with
                        MAR := mar
                        MBR := mbr
                        AC := ac
                        Z := ac == 0
                        N := decide (ac < 0) } }
  | 2 => -- SUB
    let mar := operand
    let mbr := jsGet m.memory mar
    let ac := m.cpu.AC - mbr
    if ac < -999 || ac > 999 then
      { m with cpu := { m.cpu with MAR := mar, MBR := mbr, AC := ac }, error := true }
    else
      { m with cpu := { m.cpu with
                        MAR := mar
                        MBR := mbr
                        AC := ac
                        Z := ac == 0
                        N := decide (ac < 0) } }
  | 3 => -- STORE/STO/STA
    let mar := operand
    { m with cpu := { m.cpu with MAR := mar, MBR := m.cpu.AC },
             memory := jsSet m.memory mar m.cpu.AC }
  | 4 => -- NOP/NUL
    m
  | 5 => -- LOAD/LDA
    let mar := operand
    let mbr := jsGet m.memory mar
    { m with cpu := { m.cpu with
                      MAR := mar
                      MBR := mbr
                      AC := mbr
                      Z := mbr == 0
                      N := decide (mbr < 0) } }
  | 6 => -- BRANCH/BR/BRU/JMP
    { m with cpu := { m.cpu with PC := operand } }
  | 7 => -- BRZ
    if m.cpu.Z || m.cpu.AC == 0 then
      { m with cpu := { m.cpu with PC := operand } }
    else m
  | 8 => -- BRP
    if decide (0 ≤ m.cpu.AC) then
      { m with cpu := { m.cpu with PC := operand } }
    else m
  | 901 => -- IN/INP
    match inp with
    | none => { m with error := true }
    | some v =>
      if decide (-999 ≤ v ∧ v ≤ 999) then
        { m with cpu := { m.cpu with AC := v, Z := v == 0, N := decide (v < 0) } }
      else { m with error := true }
  | 902 => -- OUT/PRN
    m
  | _ => -- unknown opcode
    { m with error := true }

/-- `fetch()`: `MAR ← PC; MBR ← memory[MAR]; IR ← MBR; PC ← PC + 1`.
The value left in `IR` is the fetched word. -/
def fetch (m : Machine) : Machine :=
  let mar := m.cpu.PC
  let mbr := jsGet m.memory mar
  { m with cpu := { m.cpu with
                    MAR := mar
                    MBR := mbr
                    IR := mbr
                    PC := m.cpu.PC + 1 } }

/-- The tail of `step()` after `execute`: update the current-line highlight
(`state.program.find(p => p.address === cpu.PC - 1)`), then halt if control
ran past the end of the program table
(`if (cpu.PC >= state.program.length && !state.halted)`). -/
def postStep (m2 : Machine) : Machine :=
  let m3 :=
    match m2.program.find? (fun p => (p.address : Int) == (m2.cpu.PC : Int) - 1) with
    | some e => { m2 with currentLine := (e.line : Int) }
    | none => m2
  if m2.cpu.PC ≥ m2.program.length && !m2.halted then { m3 with halted := true }
  else m3

/-- `step()`: return unchanged when halted or errored; else count the cycle,
fetch, decode the fetched word, execute, and run the step tail. -/
def step (inp : Option Int) (m : Machine) : Machine :=
  if m.halted || m.error then m
  else
    let ma := { m with cycle := m.cycle + 1 }
    let d := decode (fetchedWord ma)
    postStep (execute inp d.opcode d.operand (fetch ma))

/-- `k` calls of `step()`, the `j`-th supplied input `ins j`. -/
def stepN (ins : Nat → Option Int) : Nat → Machine → Machine
  | 0, m => m
  | k + 1, m => step (ins k) (stepN ins k m)

/-- Input oracle for programs that never execute opcode 901. -/
def noInput : Nat → Option Int := fun _ => none

/- ============================================================
   Program load and reset (`loadProgram`, `reset`)
   ============================================================ -/

/-- The memory-write loop of `loadProgram`:
`program.forEach(({address, bytecode}) => { memory[address] = bytecode })`.
Note there is no zero-fill before the writes. -/
def loadWords (mem : List Int) (prog : List ProgEntry) : List Int :=
  prog.foldl (fun mm e => jsSet mm e.address e.bytecode) mem

/-- `loadProgram()`: assemble; on any assembly error set the error state and
change nothing else; otherwise write each entry's bytecode into memory (over
whatever memory already holds) and install the program table. -/
def loadProgram (code : String) (m : Machine) : Machine :=
  let asm := assembleProgram code
  if asm.snd.isEmpty then
    { m with memory := loadWords m.memory asm.fst, program := asm.fst }
  else
    { m with error := true }

/-- `reset()`: fresh cpu, `memory.fill(0)` (length kept), fresh run state. -/
def resetMachine (m : Machine) : Machine :=
  { cpu := initCPU
    memory := List.replicate m.memory.length 0
    halted := false
    error := false
    cycle := 0
    program := []
    currentLine := -1 }

/-- Modelled from the spec: the claimed encoding
`opcode*100 + (operand mod 100)` read with the mathematical (always
non-negative) remainder, stated for comparison against the source
encoding, which uses the JavaScript `%` (truncating) remainder. -/
def specEncodeWord (k : Nat) (n : Int) : Int :=
  if k == 901 || k == 902 then (k : Int) else (k : Int) * 100 + Int.emod n 100

/-- Test for the three branch opcodes (BRANCH/BRZ/BRP). -/
def isBranchOp (op : Nat) : Bool := op == 6 || op == 7 || op == 8

/- ============================================================
   Helper lemmas
   ============================================================ -/

lemma jsSet_getD (l : List Int) (a b : Nat) (v : Int) :
    (jsSet l a v).getD b 0 = if b = a then v else l.getD b 0 := by
  induction l generalizing a b with
  | nil =>
    induction a generalizing b with
    | zero => cases b <;> simp [jsSet]
    | succ a ih =>
      cases b with
      | zero => simp [jsSet]
      | succ n =>
        simp only [jsSet, List.getD_cons_succ, ih n, Nat.succ.injEq]
        simp
  | cons x xs ih =>
    cases a with
    | zero => cases b <;> simp [jsSet]
    | succ a =>
      cases b with
      | zero => simp [jsSet]
      | succ n =>
        simp only [jsSet, List.getD_cons_succ, ih a n, Nat.succ.injEq]

lemma jsSet_length (l : List Int) (a : Nat) (v : Int) :
    (jsSet l a v).length = max l.length (a + 1) := by
  induction l generalizing a with
  | nil =>
    induction a with
    | zero => simp [jsSet]
    | succ a ih => simp [jsSet, ih]
  | cons x xs ih =>
    cases a with
    | zero => simp [jsSet]
    | succ a => simp [jsSet, ih]; omega

lemma jsSet_length_of_lt (l : List Int) (a : Nat) (v : Int) (h : a < l.length) :
    (jsSet l a v).length = l.length := by
  rw [jsSet_length]; omega

lemma loadWords_getD_not_mem (prog : List ProgEntry) (mem : List Int) (a : Nat)
    (h : a ∉ prog.map ProgEntry.address) :
    (loadWords mem prog).getD a 0 = mem.getD a 0 := by
  induction prog generalizing mem with
  | nil => rfl
  | cons e p ih =>
    simp only [List.map_cons, List.mem_cons, not_or] at h
    show (loadWords (jsSet mem e.address e.bytecode) p).getD a 0 = _
    rw [ih _ h.2, jsSet_getD, if_neg h.1]

lemma loadWords_getD_mem (prog : List ProgEntry) (m1 m2 : List Int) (a : Nat)
    (h : a ∈ prog.map ProgEntry.address) :
    (loadWords m1 prog).getD a 0 = (loadWords m2 prog).getD a 0 := by
  induction prog generalizing m1 m2 with
  | nil => simp at h
  | cons e p ih =>
    by_cases hp : a ∈ p.map ProgEntry.address
    · exact ih _ _ hp
    · simp only [List.map_cons, List.mem_cons] at h
      have ha : a = e.address := h.resolve_right hp
      show (loadWords (jsSet m1 e.address e.bytecode) p).getD a 0 =
           (loadWords (jsSet m2 e.address e.bytecode) p).getD a 0
      rw [loadWords_getD_not_mem _ _ _ hp, loadWords_getD_not_mem _ _ _ hp,
          jsSet_getD, jsSet_getD, if_pos ha, if_pos ha]

lemma loadWords_length (prog : List ProgEntry) (mem : List Int)
    (h : ∀ e ∈ prog, e.address < mem.length) :
    (loadWords mem prog).length = mem.length := by
  induction prog generalizing mem with
  | nil => rfl
  | cons e p ih =>
    show (loadWords (jsSet mem e.address e.bytecode) p).length = _
    have he : e.address < mem.length := h e (by simp)
    have hlen := jsSet_length_of_lt mem e.address e.bytecode he
    rw [ih _ fun x hx => by rw [hlen]; exact h x (by simp [hx]), hlen]

lemma step_of_halted (inp : Option Int) (m : Machine) (h : m.halted = true) :
    step inp m = m := by
  simp [step, h]

lemma step_of_error (inp : Option Int) (m : Machine) (h : m.error = true) :
    step inp m = m := by
  simp [step, h]

lemma stepN_of_error (ins : Nat → Option Int) (k : Nat) (m : Machine)
    (h : m.error = true) : stepN ins k m = m := by
  induction k with
  | zero => rfl
  | succ k ih => show step (ins k) (stepN ins k m) = m; rw [ih, step_of_error _ _ h]

lemma postStep_cpu (m : Machine) : (postStep m).cpu = m.cpu := by
  unfold postStep
  split <;> split <;> rfl

lemma postStep_error (m : Machine) : (postStep m).error = m.error := by
  unfold postStep
  split <;> split <;> rfl

lemma postStep_memory (m : Machine) : (postStep m).memory = m.memory := by
  unfold postStep
  split <;> split <;> rfl

lemma postStep_program (m : Machine) : (postStep m).program = m.program := by
  unfold postStep
  split <;> split <;> rfl

lemma postStep_halted (m : Machine) :
    (postStep m).halted = (m.halted || decide (m.program.length ≤ m.cpu.PC)) := by
  unfold postStep
  split <;> split <;> rename_i h1 h2 <;> simp_all

lemma decode_operand_lt (w : Int) : (decode w).operand < 100 := by
  unfold decode
  split
  · simp
  · exact Nat.mod_lt _ (by norm_num)

lemma execute_program (inp : Option Int) (op opr : Nat) (m : Machine) :
    (execute inp op opr m).program = m.program := by
  unfold execute
  split <;> (try dsimp only) <;> (repeat' split) <;> rfl

lemma execute_memory_length (inp : Option Int) (op opr : Nat) (m : Machine)
    (h1 : opr < m.memory.length) :
    (execute inp op opr m).memory.length = m.memory.length := by
  unfold execute
  split <;> (try dsimp only) <;> (repeat' split) <;> first
    | rfl
    | exact jsSet_length_of_lt _ _ _ h1

lemma execute_no_branch_PC (inp : Option Int) (op opr : Nat) (m : Machine)
    (hnb : ¬(op = 6 ∨ op = 7 ∨ op = 8)) :
    (execute inp op opr m).error = true ∨ (execute inp op opr m).cpu.PC = m.cpu.PC := by
  unfold execute
  split <;> (try dsimp only) <;> (repeat' split) <;> simp_all

lemma execute_flags (inp : Option Int) (op opr : Nat) (m : Machine)
    (hop : op = 1 ∨ op = 2 ∨ op = 5 ∨ op = 901) :
    (execute inp op opr m).error = true ∨
    ((execute inp op opr m).cpu.Z = ((execute inp op opr m).cpu.AC == 0) ∧
     (execute inp op opr m).cpu.N = decide ((execute inp op opr m).cpu.AC < 0)) := by
  unfold execute
  split <;> (try dsimp only) <;> (repeat' split) <;> simp_all

lemma execute_halted (inp : Option Int) (op opr : Nat) (m : Machine) :
    (execute inp op opr m).halted = m.halted ∨
    ((execute inp op opr m).halted = true ∧ op = 0) := by
  unfold execute
  split <;> (try dsimp only) <;> (repeat' split) <;> simp_all

lemma fetch_cpu_PC (m : Machine) : (fetch m).cpu.PC = m.cpu.PC + 1 := rfl
lemma fetch_memory (m : Machine) : (fetch m).memory = m.memory := rfl
lemma fetch_program (m : Machine) : (fetch m).program = m.program := rfl
lemma fetch_halted (m : Machine) : (fetch m).halted = m.halted := rfl
lemma fetch_error (m : Machine) : (fetch m).error = m.error := rfl

lemma step_run (inp : Option Int) (m : Machine)
    (hh : m.halted = false) (he : m.error = false) :
    step inp m =
      postStep (execute inp (decode (fetchedWord m)).opcode
        (decode (fetchedWord m)).operand (fetch { m with cycle := m.cycle + 1 })) := by
  simp [step, hh, he, fetchedWord]

lemma step_program (inp : Option Int) (m : Machine) :
    (step inp m).program = m.program := by
  by_cases hh : m.halted
  · rw [step_of_halted _ _ hh]
  · by_cases he : m.error
    · rw [step_of_error _ _ he]
    · rw [step_run inp m (by simp [hh]) (by simp [he]), postStep_program,
          execute_program, fetch_program]

/- ============================================================
   C3 — memory size
   ============================================================ -/

/-- C3 counterexample: the machine's memory is NOT 100 words long; the
source allocates `new Array(256)`. -/
theorem c3_memory_100_cex : ¬ (freshMachine.memory.length = 100) := by decide

/-- C3 (amended): the memory is a fixed-length sequence of exactly 256
words; `reset` keeps the length, `step` keeps the length of any memory of
at least 100 words (decoded operands are below 100), and loading a program
whose entries all target in-range addresses keeps the length. -/
theorem c3_memory_fixed_256 :
    freshMachine.memory.length = 256 ∧
    (∀ m : Machine, (resetMachine m).memory.length = m.memory.length) ∧
    (∀ (inp : Option Int) (m : Machine), 100 ≤ m.memory.length →
      (step inp m).memory.length = m.memory.length) ∧
    (∀ (code : String) (m : Machine),
      ((assembleProgram code).fst.all fun e => decide (e.address < m.memory.length)) = true →
      (loadProgram code m).memory.length = m.memory.length) := by
  refine ⟨by decide, fun m => by simp [resetMachine], ?_, ?_⟩
  · intro inp m hlen
    by_cases hh : m.halted
    · rw [step_of_halted _ _ hh]
    · by_cases he : m.error
      · rw [step_of_error _ _ he]
      · rw [step_run inp m (by simp [hh]) (by simp [he]), postStep_memory]
        have hopr := decode_operand_lt (fetchedWord m)
        have h1 : (decode (fetchedWord m)).operand <
            (fetch { m with cycle := m.cycle + 1 }).memory.length := by
          rw [fetch_memory]
          exact lt_of_lt_of_le hopr (by simpa using hlen)
        rw [execute_memory_length _ _ _ _ h1, fetch_memory]
  · intro code m hall
    unfold loadProgram
    dsimp only
    split
    · dsimp only
      refine loadWords_length _ _ fun e he => ?_
      have := List.all_eq_true.mp hall e he
      simpa using this
    · rfl

/-- C3 witness: the amended theorem applied at concrete inputs. -/
theorem c3_memory_fixed_256_wit :
    (step none freshMachine).memory.length = freshMachine.memory.length ∧
    (loadProgram "STO 5" freshMachine).memory.length = freshMachine.memory.length :=
  ⟨c3_memory_fixed_256.2.2.1 none freshMachine (by decide),
   c3_memory_fixed_256.2.2.2 "STO 5" freshMachine (by decide)⟩

/- ============================================================
   C7 — decode
   ============================================================ -/

/-- C7 counterexample: a negative word does NOT always decode like its
absolute value: `-901` takes the general path and decodes to
`(opcode 9, operand 1)` while `901` is the reserved IN word. -/
theorem c7_decode_neg901_cex :
    decode (-901) = ⟨9, 1⟩ ∧ decode 901 = ⟨901, 0⟩ ∧
    decode (-901) ≠ decode 901 := by decide

/-- C7 (amended): 901 and 902 decode to themselves with operand 0; every
other word decodes by the digit formula on its absolute value; a negative
word other than `-901`/`-902` decodes identically to its absolute value
(those two go through the digit formula, unlike `901`/`902`). -/
theorem c7_decode_characterisation :
    decode 901 = ⟨901, 0⟩ ∧ decode 902 = ⟨902, 0⟩ ∧
    (∀ w : Int, w ≠ 901 → w ≠ 902 →
      decode w = ⟨w.natAbs / 100 % 10, w.natAbs % 100⟩) ∧
    (∀ w : Int, w < 0 → w ≠ -901 → w ≠ -902 → decode w = decode (-w)) := by
  refine ⟨by decide, by decide, ?_, ?_⟩
  · intro w h1 h2
    unfold decode
    rw [if_neg (by simp [h1, h2])]
  · intro w hneg h1 h2
    have hw1 : w ≠ 901 := by omega
    have hw2 : w ≠ 902 := by omega
    have hn1 : -w ≠ 901 := by omega
    have hn2 : -w ≠ 902 := by omega
    unfold decode
    rw [if_neg (by simp [hw1, hw2]), if_neg (by simp [hn1, hn2])]
    simp [Int.natAbs_neg]

/-- C7 witness: the characterisation applied at concrete words. -/
theorem c7_decode_characterisation_wit :
    decode 345 = ⟨3, 45⟩ ∧ decode (-345) = decode 345 := by
  constructor
  · exact (c7_decode_characterisation.2.2.1 345 (by decide) (by decide)).trans (by decide)
  · have := c7_decode_characterisation.2.2.2 (-345) (by decide) (by decide) (by decide)
    simpa using this

/- ============================================================
   C5 — program load and stale memory
   ============================================================ -/

/-- C5 counterexample: `loadProgram` does not zero memory first, so loading
`"DAT 3"` over `"DAT 7\nDAT 7"` leaves the stale word 7 at address 1,
unlike loading `"DAT 3"` into a fresh machine. -/
theorem c5_stale_memory_cex :
    jsGet (loadProgram "DAT 3" (loadProgram "DAT 7\nDAT 7" freshMachine)).memory 1 = 7 ∧
    jsGet (loadProgram "DAT 3" freshMachine).memory 1 = 0 ∧
    (loadProgram "DAT 3" (loadProgram "DAT 7\nDAT 7" freshMachine)).memory ≠
      (loadProgram "DAT 3" freshMachine).memory := by decide

/-- C5 (amended): loading writes only the program's words (no zero-fill):
after loading `p2` over `p1`, a cell agrees with the fresh load of `p2`
exactly when some entry of `p2` writes it and otherwise retains the image
left by `p1`; and on error-free assembly, `loadProgram` updates memory by
exactly that overlay. -/
theorem c5_load_overlay :
    (∀ (p1 p2 : List ProgEntry) (mem : List Int) (a : Nat),
      (loadWords (loadWords mem p1) p2).getD a 0 =
        if a ∈ p2.map ProgEntry.address then (loadWords mem p2).getD a 0
        else (loadWords mem p1).getD a 0) ∧
    (∀ (code : String) (m : Machine), (assembleProgram code).snd = [] →
      (loadProgram code m).memory = loadWords m.memory (assembleProgram code).fst) := by
  constructor
  · intro p1 p2 mem a
    by_cases h : a ∈ p2.map ProgEntry.address
    · rw [if_pos h]
      exact loadWords_getD_mem _ _ _ _ h
    · rw [if_neg h, loadWords_getD_not_mem _ _ _ h]
  · intro code m herr
    simp [loadProgram, herr]

/-- C5 witness: the overlay description applied at a concrete pair of
programs and address. -/
theorem c5_load_overlay_wit :
    (loadWords (loadWords initMemory (assembleProgram "DAT 7\nDAT 7").fst)
        (assembleProgram "DAT 3").fst).getD 1 0 =
      (if 1 ∈ ((assembleProgram "DAT 3").fst.map ProgEntry.address)
       then (loadWords initMemory (assembleProgram "DAT 3").fst).getD 1 0
       else (loadWords initMemory (assembleProgram "DAT 7\nDAT 7").fst).getD 1 0) ∧
    (loadProgram "DAT 3" freshMachine).memory =
      loadWords freshMachine.memory (assembleProgram "DAT 3").fst :=
  ⟨c5_load_overlay.1 (assembleProgram "DAT 7\nDAT 7").fst (assembleProgram "DAT 3").fst
      initMemory 1,
   c5_load_overlay.2 "DAT 3" freshMachine (by decide)⟩

/- ============================================================
   C4 — running off the end of the program
   ============================================================ -/

/-- C4 counterexample: the off-end check compares `PC` against the COUNT of
program entries, not the last loaded address.  For `"NOP\n*0\nNOP"` (two
entries, both at address 0) the machine executes the step that moves `PC`
to 1 — at which point `PC` is past the last loaded address while the
machine is not halted. -/
theorem c4_last_address_cex :
    ((loadProgram "NOP\n*0\nNOP" freshMachine).program.all
      fun e => e.address == 0) = true ∧
    (loadProgram "NOP\n*0\nNOP" freshMachine).halted = false ∧
    (step none (loadProgram "NOP\n*0\nNOP" freshMachine)).cpu.PC = 1 ∧
    (step none (loadProgram "NOP\n*0\nNOP" freshMachine)).halted = false := by decide

/-- C4 (amended): after the execute phase of every step, if the program
counter is at or past the NUMBER of loaded program entries
(`state.program.length`) and the machine has not halted this step, the
machine transitions to Halted (the error flag is untouched by this check). -/
theorem c4_off_end_halts (inp : Option Int) (m : Machine)
    (hh : m.halted = false) (he : m.error = false)
    (hpc : m.program.length ≤ (step inp m).cpu.PC) :
    (step inp m).halted = true := by
  rw [step_run inp m hh he] at hpc ⊢
  rw [postStep_cpu] at hpc
  rw [postStep_halted]
  have hprog : (execute inp (decode (fetchedWord m)).opcode
      (decode (fetchedWord m)).operand
      (fetch { m with cycle := m.cycle + 1 })).program = m.program := by
    rw [execute_program, fetch_program]
  rw [hprog]
  simp [hpc]

/-- C4 witness: a one-entry program halts after its single step. -/
theorem c4_off_end_halts_wit :
    (step none (loadProgram "NOP" freshMachine)).halted = true :=
  c4_off_end_halts none (loadProgram "NOP" freshMachine)
    (by decide) (by decide) (by decide)

lemma fetch_cpu_AC (m : Machine) : (fetch m).cpu.AC = m.cpu.AC := rfl

lemma execute_add_overflow (inp : Option Int) (x : Nat) (m : Machine)
    (hov : m.cpu.AC + jsGet m.memory x < -999 ∨ 999 < m.cpu.AC + jsGet m.memory x) :
    (execute inp 1 x m).error = true ∧
    (execute inp 1 x m).cpu.AC = m.cpu.AC + jsGet m.memory x := by
  unfold execute
  dsimp only
  rw [if_pos (by rcases hov with h | h <;> simp [h])]
  exact ⟨rfl, rfl⟩

lemma execute_sub_overflow (inp : Option Int) (x : Nat) (m : Machine)
    (hov : m.cpu.AC - jsGet m.memory x < -999 ∨ 999 < m.cpu.AC - jsGet m.memory x) :
    (execute inp 2 x m).error = true ∧
    (execute inp 2 x m).cpu.AC = m.cpu.AC - jsGet m.memory x := by
  unfold execute
  dsimp only
  rw [if_pos (by rcases hov with h | h <;> simp [h])]
  exact ⟨rfl, rfl⟩

/- ============================================================
   C1 — ADD/SUB overflow
   ============================================================ -/

/-- C1 counterexample: on overflow the out-of-range result IS committed to
AC.  Running `"LDA 2\nADD 2\nDAT 999"` for two steps leaves the machine
Errored with `AC = 1998`, far outside −999..999. -/
theorem c1_commits_ac_cex :
    (stepN noInput 2 (loadProgram "LDA 2\nADD 2\nDAT 999" freshMachine)).error = true ∧
    (stepN noInput 2 (loadProgram "LDA 2\nADD 2\nDAT 999" freshMachine)).cpu.AC = 1998 := by
  decide

/-- C1 (amended): when the fetched word decodes to ADD or SUB and the
arithmetic result falls outside −999..+999, the machine transitions to
Errored with the out-of-range result left committed in AC (flags and the
register-change notification are skipped), and no subsequent `step()`
mutates any machine state until an explicit reset. -/
theorem c1_overflow_freezes (ins : Nat → Option Int) (inp : Option Int)
    (m : Machine) (x : Nat) (v : Int)
    (hh : m.halted = false) (he : m.error = false)
    (hcase : (decode (fetchedWord m) = ⟨1, x⟩ ∧ v = m.cpu.AC + jsGet m.memory x) ∨
             (decode (fetchedWord m) = ⟨2, x⟩ ∧ v = m.cpu.AC - jsGet m.memory x))
    (hov : v < -999 ∨ 999 < v) :
    (step inp m).error = true ∧ (step inp m).cpu.AC = v ∧
    ∀ k, stepN ins k (step inp m) = step inp m := by
  have herr2 : (step inp m).error = true ∧ (step inp m).cpu.AC = v := by
    rw [step_run inp m hh he, postStep_error, postStep_cpu]
    rcases hcase with ⟨hd, hv⟩ | ⟨hd, hv⟩ <;> rw [hd] <;> dsimp only
    · have h := execute_add_overflow inp x (fetch { m with cycle := m.cycle + 1 })
        (by rw [fetch_cpu_AC, fetch_memory]; exact hv ▸ hov)
      exact ⟨h.1, h.2.trans hv.symm⟩
    · have h := execute_sub_overflow inp x (fetch { m with cycle := m.cycle + 1 })
        (by rw [fetch_cpu_AC, fetch_memory]; exact hv ▸ hov)
      exact ⟨h.1, h.2.trans hv.symm⟩
  exact ⟨herr2.1, herr2.2, fun k => stepN_of_error ins k _ herr2.1⟩

/-- C1 witness: the amended theorem applied to the machine one step before
the overflow of the counterexample program. -/
theorem c1_overflow_freezes_wit :
    (step none (stepN noInput 1 (loadProgram "LDA 2\nADD 2\nDAT 999" freshMachine))).error = true ∧
    (step none (stepN noInput 1 (loadProgram "LDA 2\nADD 2\nDAT 999" freshMachine))).cpu.AC = 1998 ∧
    stepN noInput 3 (step none (stepN noInput 1 (loadProgram "LDA 2\nADD 2\nDAT 999" freshMachine))) =
      step none (stepN noInput 1 (loadProgram "LDA 2\nADD 2\nDAT 999" freshMachine)) := by
  have h := c1_overflow_freezes noInput none
    (stepN noInput 1 (loadProgram "LDA 2\nADD 2\nDAT 999" freshMachine)) 2 1998
    (by decide) (by decide) (Or.inl ⟨by decide, by decide⟩) (by decide)
  exact ⟨h.1, h.2.1, h.2.2 3⟩

/- ============================================================
   C2 — flag invariant
   ============================================================ -/

/-- C2 counterexample: the flag invariant fails in the very first reachable
state: the machine initialises (and resets) with `AC = 0` but `Z = false`,
so `Z ⇔ AC == 0` does not hold in the initial state nor after `reset()`. -/
theorem c2_init_flags_cex :
    freshMachine.cpu.AC = 0 ∧ freshMachine.cpu.Z = false ∧
    ¬ (freshMachine.cpu.Z = true ↔ freshMachine.cpu.AC = 0) ∧
    (resetMachine freshMachine).cpu.AC = 0 ∧
    (resetMachine freshMachine).cpu.Z = false := by decide

/-- C2 (amended): after any step whose fetched word decodes to an
AC-writing opcode (ADD, SUB, LOAD, IN) and which does not raise an error,
the flags satisfy `Z = (AC == 0)` and `N = (AC < 0)`.  (The invariant does
not hold in the initial/reset state, where `AC = 0` yet `Z = N = false`,
and an erroring ADD/SUB leaves the flags stale.) -/
theorem c2_flags_after_write (inp : Option Int) (m : Machine) (c x : Nat)
    (hh : m.halted = false) (he : m.error = false)
    (hd : decode (fetchedWord m) = ⟨c, x⟩)
    (hc : c = 1 ∨ c = 2 ∨ c = 5 ∨ c = 901)
    (hne : (step inp m).error = false) :
    (step inp m).cpu.Z = ((step inp m).cpu.AC == 0) ∧
    (step inp m).cpu.N = decide ((step inp m).cpu.AC < 0) := by
  rw [step_run inp m hh he] at hne ⊢
  rw [postStep_error] at hne
  rw [postStep_cpu]
  rw [hd] at hne ⊢
  dsimp only at hne ⊢
  rcases execute_flags inp c x (fetch { m with cycle := m.cycle + 1 }) hc with h | h
  · simp [h] at hne
  · exact h

/-- C2 witness: flags after a LOAD of a negative word. -/
theorem c2_flags_after_write_wit :
    (step none (loadProgram "LDA 2\nHLT\nDAT -7" freshMachine)).cpu.Z =
      ((step none (loadProgram "LDA 2\nHLT\nDAT -7" freshMachine)).cpu.AC == 0) ∧
    (step none (loadProgram "LDA 2\nHLT\nDAT -7" freshMachine)).cpu.N =
      decide ((step none (loadProgram "LDA 2\nHLT\nDAT -7" freshMachine)).cpu.AC < 0) :=
  c2_flags_after_write none (loadProgram "LDA 2\nHLT\nDAT -7" freshMachine) 5 2
    (by decide) (by decide) (by decide) (by simp) (by decide)

/- ============================================================
   C9 — unknown mnemonic
   ============================================================ -/

/-- C9: a line whose stripped text reaches the instruction branch with a
mnemonic that is not in the opcode table appends exactly one error naming
its 1-based source line, consumes no address slot, leaves the program
table untouched, and assembly of the remaining lines continues from the
otherwise-unchanged state. -/
theorem c9_unknown_mnemonic (i : Nat) (st : AsmState) (L : String)
    (rest : List String) (codeOnly : String)
    (hstrip : stripCode L = some codeOnly)
    (hstar : sStarts codeOnly "*" = false)
    (hdat : sStarts (jsToUpper codeOnly) "DAT" = false)
    (hbare : isBareIntStr codeOnly = false)
    (hunk : lookupOpcode (jsToUpper ((splitWS codeOnly).headD "")) = none) :
    asmRun i st (L :: rest) =
      asmRun (i + 1)
        { st with errors := st.errors ++
            [unknownInstrMsg (i + 1) (jsToUpper ((splitWS codeOnly).headD ""))] }
        rest := by
  show asmRun (i + 1) (processLine st i L) rest = _
  have hpl : processLine st i L =
      { st with errors := st.errors ++
          [unknownInstrMsg (i + 1) (jsToUpper ((splitWS codeOnly).headD ""))] } := by
    unfold processLine
    rw [hstrip]
    have hunk2 : lookupOpcode (jsToUpper ((splitWS codeOnly).head?.getD "")) = none := by
      rwa [← List.headD_eq_head?]
    simp [processCode, hstar, hdat, hbare, hunk, hunk2, List.headD_eq_head?]
  rw [hpl]

/-- C9 witness: `"FOO 5"` followed by a valid line. -/
theorem c9_unknown_mnemonic_wit :
    asmRun 0 ⟨0, [], []⟩ ("FOO 5" :: ["HLT"]) =
      asmRun 1 { address := 0, program := [],
                 errors := [unknownInstrMsg 1 (jsToUpper ((splitWS "FOO 5").headD ""))] }
        ["HLT"] :=
  c9_unknown_mnemonic 0 ⟨0, [], []⟩ "FOO 5" ["HLT"] "FOO 5"
    (by decide) (by decide) (by decide) (by decide) (by decide)

/- ============================================================
   C10 — DAT-prefixed lines
   ============================================================ -/

/-- C10: a stripped code line whose upper-cased text starts with `DAT` is
treated as a data directive (never an error); when the remainder after the
first three characters does not parse as a decimal integer the line is
skipped entirely — no word, no error, and no address advance. -/
theorem c10_dat_silent_skip (st : AsmState) (i : Nat) (raw codeOnly : String)
    (hstrip : stripCode raw = some codeOnly)
    (hstar : sStarts codeOnly "*" = false)
    (hdat : sStarts (jsToUpper codeOnly) "DAT" = true) :
    (processLine st i raw).errors = st.errors ∧
    (parseIntJS (jsTrim (dropStr codeOnly 3)) = none → processLine st i raw = st) := by
  constructor
  · unfold processLine
    rw [hstrip]
    simp only [processCode, hstar, hdat]
    simp only [Bool.false_eq_true, if_false, if_true]
    split <;> rfl
  · intro hp
    unfold processLine
    rw [hstrip]
    simp [processCode, hstar, hdat, hp]

/-- C10 witness: `"DATABASE 5"` is silently skipped. -/
theorem c10_dat_silent_skip_wit :
    (processLine ⟨3, [], []⟩ 0 "DATABASE 5").errors = [] ∧
    processLine ⟨3, [], []⟩ 0 "DATABASE 5" = ⟨3, [], []⟩ :=
  ⟨(c10_dat_silent_skip ⟨3, [], []⟩ 0 "DATABASE 5" "DATABASE 5"
      (by decide) (by decide) (by decide)).1,
   (c10_dat_silent_skip ⟨3, [], []⟩ 0 "DATABASE 5" "DATABASE 5"
      (by decide) (by decide) (by decide)).2 (by decide)⟩

/- ============================================================
   C6 — instruction encoding
   ============================================================ -/

/-- C6 counterexample: with the mathematical reading of `mod`, the claim
fails for negative operands: `"ADD -5"` assembles to the word 95 (via the
JavaScript truncating `%`), not `1*100 + ((-5) mod 100) = 195`. -/
theorem c6_negative_operand_cex :
    (assembleProgram "ADD -5").fst.map ProgEntry.bytecode = [95] ∧
    specEncodeWord 1 (-5) = 195 ∧
    (assembleProgram "ADD -5").fst.map ProgEntry.bytecode ≠ [specEncodeWord 1 (-5)] := by
  decide

/-- C6 (amended): IN (901) and OUT (902) encode to themselves ignoring any
operand; every other mnemonic with opcode `k` and integer operand `n`
encodes to `k*100 + (n rem 100)` where `rem` is the truncating JavaScript
remainder (negative for negative `n`); a missing operand token defaults to
operand 0. -/
theorem c6_encoding :
    (∀ (st : AsmState) (i : Nat) (raw codeOnly mn tok : String) (k : Nat) (n : Int),
      stripCode raw = some codeOnly →
      sStarts codeOnly "*" = false →
      sStarts (jsToUpper codeOnly) "DAT" = false →
      isBareIntStr codeOnly = false →
      splitWS codeOnly = [mn, tok] →
      lookupOpcode (jsToUpper mn) = some k →
      parseIntJS tok = some n →
      processLine st i raw =
        { st with
          program := st.program ++
            [⟨st.address,
              if k == 901 || k == 902 then (k : Int)
              else (k : Int) * 100 + Int.tmod n 100,
              i, jsToUpper mn, n⟩]
          address := st.address + 1 }) ∧
    (∀ (st : AsmState) (i : Nat) (raw codeOnly mn : String) (k : Nat),
      stripCode raw = some codeOnly →
      sStarts codeOnly "*" = false →
      sStarts (jsToUpper codeOnly) "DAT" = false →
      isBareIntStr codeOnly = false →
      splitWS codeOnly = [mn] →
      lookupOpcode (jsToUpper mn) = some k →
      processLine st i raw =
        { st with
          program := st.program ++
            [⟨st.address,
              if k == 901 || k == 902 then (k : Int) else (k : Int) * 100,
              i, jsToUpper mn, 0⟩]
          address := st.address + 1 }) := by
  constructor
  · intro st i raw codeOnly mn tok k n hstrip hstar hdat hbare hsplit hlook htok
    unfold processLine
    rw [hstrip]
    simp [processCode, hstar, hdat, hbare, hsplit, hlook, htok]
  · intro st i raw codeOnly mn k hstrip hstar hdat hbare hsplit hlook
    unfold processLine
    rw [hstrip]
    simp [processCode, hstar, hdat, hbare, hsplit, hlook, Int.add_zero]

/-- C6 witness: `"ADD 7"` and operand-less `"OUT"`. -/
theorem c6_encoding_wit :
    processLine ⟨0, [], []⟩ 0 "ADD 7" =
      { address := 1
        program := [⟨0,
          if (1 : Nat) == 901 || (1 : Nat) == 902 then (1 : Int)
          else (1 : Int) * 100 + Int.tmod 7 100, 0, jsToUpper "ADD", 7⟩]
        errors := [] } ∧
    processLine ⟨0, [], []⟩ 0 "OUT" =
      { address := 1
        program := [⟨0,
          if (902 : Nat) == 901 || (902 : Nat) == 902 then (902 : Int)
          else (902 : Int) * 100, 0, jsToUpper "OUT", 0⟩]
        errors := [] } :=
  ⟨c6_encoding.1 ⟨0, [], []⟩ 0 "ADD 7" "ADD 7" "ADD" "7" 1 7
      (by decide) (by decide) (by decide) (by decide) (by decide) (by decide) (by decide),
   c6_encoding.2 ⟨0, [], []⟩ 0 "OUT" "OUT" "OUT" 902
      (by decide) (by decide) (by decide) (by decide) (by decide) (by decide)⟩

lemma step_no_branch_shape (inp : Option Int) (s : Machine)
    (hh : s.halted = false) (he : s.error = false)
    (hnb : isBranchOp (decode (fetchedWord s)).opcode = false)
    (he' : (step inp s).error = false) :
    (step inp s).cpu.PC = s.cpu.PC + 1 ∧
    ((step inp s).halted = false → s.cpu.PC + 1 < s.program.length) := by
  have hnb' : ¬((decode (fetchedWord s)).opcode = 6 ∨
      (decode (fetchedWord s)).opcode = 7 ∨ (decode (fetchedWord s)).opcode = 8) := by
    simp [isBranchOp] at hnb
    tauto
  rw [step_run inp s hh he] at he' ⊢
  rw [postStep_error] at he'
  set m2 := execute inp (decode (fetchedWord s)).opcode (decode (fetchedWord s)).operand
    (fetch { s with cycle := s.cycle + 1 }) with hm2
  have hPC2 : m2.cpu.PC = s.cpu.PC + 1 := by
    rcases execute_no_branch_PC inp (decode (fetchedWord s)).opcode
        (decode (fetchedWord s)).operand (fetch { s with cycle := s.cycle + 1 }) hnb' with hE | hE
    · rw [← hm2] at hE
      rw [hE] at he'
      cases he'
    · rw [← hm2] at hE
      rw [hE, fetch_cpu_PC]
  have hprog2 : m2.program = s.program := by
    rw [hm2, execute_program, fetch_program]
  refine ⟨by rw [postStep_cpu, hPC2], fun hnh => ?_⟩
  rw [postStep_halted] at hnh
  simp only [Bool.or_eq_false_iff, decide_eq_false_iff_not, not_le] at hnh
  obtain ⟨_, hlt⟩ := hnh
  rw [hprog2, hPC2] at hlt
  exact hlt

/- ============================================================
   C8 — termination of branch-free programs
   ============================================================ -/

/-- C8 counterexample: a valid program with NO branch instruction and no
ADD/SUB/IN overflow that never halts: it computes the word 602 (`BR 2`)
with one in-range ADD, STOREs it at address 5, and then control runs into
it, looping forever.  After `memory.size()` = 256 cycles the machine is
neither Halted nor Errored. -/
theorem c8_self_modifying_cex :
    (assembleProgram "LDA 6\nADD 6\nSTO 5\nNOP\nNOP\nDAT 0\nDAT 301").snd = [] ∧
    (loadProgram "LDA 6\nADD 6\nSTO 5\nNOP\nNOP\nDAT 0\nDAT 301" freshMachine).program.map
        ProgEntry.instr = ["LDA", "ADD", "STO", "NOP", "NOP", "DAT", "DAT"] ∧
    (loadProgram "LDA 6\nADD 6\nSTO 5\nNOP\nNOP\nDAT 0\nDAT 301" freshMachine).memory.length
        = 256 ∧
    (stepN noInput 256
        (loadProgram "LDA 6\nADD 6\nSTO 5\nNOP\nNOP\nDAT 0\nDAT 301" freshMachine)).halted
        = false ∧
    (stepN noInput 256
        (loadProgram "LDA 6\nADD 6\nSTO 5\nNOP\nNOP\nDAT 0\nDAT 301" freshMachine)).error
        = false := by
  decide

/-- C8 (amended): for a loaded program whose entry count is at most
`memory.size()` and whose execution never errors and never fetches a word
decoding to a branch opcode (stronger than "contains no branch
instruction", since STORE can plant branch words into memory), repeated
stepping reaches Halted within `memory.size()` cycles, and the program
counter stays within `0..memory.size()` throughout. -/
theorem c8_no_branch_halts (ins : Nat → Option Int) (m0 : Machine)
    (hpc : m0.cpu.PC = 0) (hh : m0.halted = false) (he : m0.error = false)
    (hmem : 1 ≤ m0.memory.length)
    (hlen : m0.program.length ≤ m0.memory.length)
    (herr : ∀ k, (stepN ins k m0).error = false)
    (hnb : ∀ k, isBranchOp (decode (fetchedWord (stepN ins k m0))).opcode = false) :
    (stepN ins m0.memory.length m0).halted = true ∧
    ∀ k, (stepN ins k m0).cpu.PC ≤ m0.memory.length := by
  have inv : ∀ k, (stepN ins k m0).program = m0.program ∧
      ((stepN ins k m0).halted = false →
        (stepN ins k m0).cpu.PC = k ∧ (k = 0 ∨ k < m0.program.length)) ∧
      ((stepN ins k m0).halted = true →
        (stepN ins k m0).cpu.PC ≤ max 1 m0.program.length) := by
    intro k
    induction k with
    | zero =>
      refine ⟨rfl, fun _ => ⟨hpc, Or.inl rfl⟩, fun hcon => ?_⟩
      have hcon' : m0.halted = true := hcon
      rw [hh] at hcon'
      cases hcon'
    | succ k ih =>
      obtain ⟨ihp, ihr, ihh⟩ := ih
      have hstep : stepN ins (k + 1) m0 = step (ins k) (stepN ins k m0) := rfl
      by_cases hsh : (stepN ins k m0).halted = true
      · rw [hstep, step_of_halted _ _ hsh]
        refine ⟨ihp, fun hc => ?_, fun _ => ihh hsh⟩
        rw [hsh] at hc
        cases hc
      · have hsh' : (stepN ins k m0).halted = false := by simpa using hsh
        obtain ⟨hPCk, hkL⟩ := ihr hsh'
        have hshape := step_no_branch_shape (ins k) (stepN ins k m0) hsh' (herr k)
          (hnb k) (by rw [← hstep]; exact herr (k + 1))
        refine ⟨by rw [hstep, step_program, ihp], fun hnh => ?_, fun hhal => ?_⟩
        · rw [hstep] at hnh ⊢
          refine ⟨by rw [hshape.1, hPCk], Or.inr ?_⟩
          have hlt := hshape.2 hnh
          rw [hPCk, ihp] at hlt
          exact hlt
        · rw [hstep] at hhal ⊢
          rw [hshape.1, hPCk]
          rcases hkL with h0 | hlt
          · subst h0
            exact le_max_left 1 _
          · exact le_trans hlt (le_max_right _ _)
      
  constructor
  · by_cases hfin : (stepN ins m0.memory.length m0).halted = true
    · exact hfin
    · have hfin' : (stepN ins m0.memory.length m0).halted = false := by simpa using hfin
      obtain ⟨_, hL⟩ := (inv m0.memory.length).2.1 hfin'
      omega
  · intro k
    by_cases hk : (stepN ins k m0).halted = true
    · have := (inv k).2.2 hk
      have hmx : max 1 m0.program.length ≤ m0.memory.length := max_le hmem hlen
      omega
    · have hk' : (stepN ins k m0).halted = false := by simpa using hk
      obtain ⟨hPC, hL⟩ := (inv k).2.1 hk'
      omega

/-- C8 witness: the branch-free two-entry program `"NOP\nHLT"` halts within
256 cycles with the program counter always in range. -/
theorem c8_no_branch_halts_wit :
    (stepN noInput (loadProgram "NOP\nHLT" freshMachine).memory.length
      (loadProgram "NOP\nHLT" freshMachine)).halted = true ∧
    (stepN noInput 5 (loadProgram "NOP\nHLT" freshMachine)).cpu.PC ≤
      (loadProgram "NOP\nHLT" freshMachine).memory.length := by
  have hfr : ∀ j, stepN noInput (j + 2) (loadProgram "NOP\nHLT" freshMachine) =
      stepN noInput 2 (loadProgram "NOP\nHLT" freshMachine) := by
    intro j
    induction j with
    | zero => rfl
    | succ j ihj =>
      show step (noInput (j + 2)) (stepN noInput (j + 2) (loadProgram "NOP\nHLT" freshMachine)) = _
      rw [ihj]
      exact step_of_halted _ _ (by decide)
  have h := c8_no_branch_halts noInput (loadProgram "NOP\nHLT" freshMachine)
    (by decide) (by decide) (by decide) (by decide) (by decide)
    (by
      intro k
      rcases k with _ | (_ | j)
      · decide
      · decide
      · rw [show j + 1 + 1 = j + 2 from rfl, hfr j]
        decide)
    (by
      intro k
      rcases k with _ | (_ | j)
      · decide
      · decide
      · rw [show j + 1 + 1 = j + 2 from rfl, hfr j]
        decide)
  exact ⟨h.1, h.2 5⟩
